import Mathlib

/-!
Verification of the Colebrook-White friction-factor solver
(src/ColebrookWhite.py) against its natural-language specification.

The Python source is shallowly embedded over the real numbers:
`math.sqrt` becomes `Real.sqrt`, `math.log10` becomes `Real.logb 10`,
`math.log` becomes `Real.log`, `math.fabs` becomes `|·|`, and the float
power `Fd ** (-3/2)` becomes the real power `Fd ^ ((-3 : ℝ) / 2)`.
The `newton` routine's `raise` is modelled by an `Option`-valued loop
(`none` = the Non-Convergence exception).  Python's runtime failures of
the arithmetic core (`ZeroDivisionError` from `1/sqrt(...)` and
`0.0 ** -1.5`, `ValueError` from `log10` of a non-positive argument)
are modelled by `Option`-valued evaluators that test exactly the
arguments Python would fault on, in source order.
-/

noncomputable section

/-- Residual of the Colebrook-White equation, from `colebrook`
(src/ColebrookWhite.py lines 7-16): `term1 = 1/math.sqrt(math.fabs(Fd))`,
`term2 = 2.51/(Re*math.sqrt(math.fabs(Fd)))`, `term3 = epsD/3.72`,
result `term1 + 2*math.log10(term2 + term3)`. -/
def colebrook (Fd Re epsD : ℝ) : ℝ :=
  1 / Real.sqrt |Fd| + 2 * Real.logb 10 (2.51 / (Re * Real.sqrt |Fd|) + epsD / 3.72)

/-- Analytic derivative used by Newton's method, from `colebrook_deriv`
(src/ColebrookWhite.py lines 18-27): `term1 = epsD/3.72`,
`term2 = 2.51/(Re*math.sqrt(math.fabs(Fd)))`, result
`-0.5 * (Fd**(-3/2)) * (1 + (2*2.51)/(math.log(10)*(term1 + term2)*Re))`. -/
def colebrook_deriv (Fd Re epsD : ℝ) : ℝ :=
  -0.5 * Fd ^ ((-3 : ℝ) / 2) *
    (1 + 2 * 2.51 / (Real.log 10 * (epsD / 3.72 + 2.51 / (Re * Real.sqrt |Fd|)) * Re))

/-- Evaluation of `colebrook` with Python's failure semantics: `1/x` raises
`ZeroDivisionError` when `x = 0` and `math.log10 x` raises `ValueError`
when `x ≤ 0`; subterms are tested in the order Python evaluates them. -/
def colebrookE (Fd Re epsD : ℝ) : Option ℝ :=
  if Real.sqrt |Fd| = 0 then none
  else if Re * Real.sqrt |Fd| = 0 then none
  else if 2.51 / (Re * Real.sqrt |Fd|) + epsD / 3.72 ≤ 0 then none
  else some (colebrook Fd Re epsD)

/-- Evaluation of `colebrook_deriv` with Python's failure semantics:
`2.51/x` raises `ZeroDivisionError` when `x = 0`, `Fd ** (-3/2)` raises
`ZeroDivisionError` when `Fd = 0`, and the final division raises
`ZeroDivisionError` when its denominator is `0`. -/
def colebrook_derivE (Fd Re epsD : ℝ) : Option ℝ :=
  if Re * Real.sqrt |Fd| = 0 then none
  else if Fd = 0 then none
  else if Real.log 10 * (epsD / 3.72 + 2.51 / (Re * Real.sqrt |Fd|)) * Re = 0 then none
  else some (colebrook_deriv Fd Re epsD)

/-- The body of `newton`'s `while i < maxiter` loop
(src/ColebrookWhite.py lines 40-51).  State `(x, i)` is the current
iterate and the number of completed iterations; `none` models the
`raise Exception("Root could not found ...")` branch. -/
def newtonLoop (Re epsD tol : ℝ) (maxiter : ℕ) (x : ℝ) (i : ℕ) : Option (ℝ × ℕ) :=
  if h : i < maxiter then
    if |colebrook x Re epsD / colebrook_deriv x Re epsD| < tol then
      some (x - colebrook x Re epsD / colebrook_deriv x Re epsD, i + 1)
    else if i + 1 = maxiter - 1 then none
    else newtonLoop Re epsD tol maxiter
      (x - colebrook x Re epsD / colebrook_deriv x Re epsD) (i + 1)
  else some (x, i)
termination_by maxiter - i
decreasing_by omega

/-- `newton(x0, Re, epsD, maxiter, tol)` (src/ColebrookWhite.py lines 29-51):
the seed is replaced by its absolute value (`x0 = math.fabs(x0)`), then the
loop runs from `i = 0`.  The source defaults are `maxiter = 100`,
`tol = 1e-9`; callers in this file pass them explicitly. -/
def newton (x0 Re epsD : ℝ) (maxiter : ℕ) (tol : ℝ) : Option (ℝ × ℕ) :=
  newtonLoop Re epsD tol maxiter |x0| 0

/-- The sequence of Newton iterates produced from seed `x0`:
`newtonIter x0 Re epsD 0 = |x0|` and each successor applies the update
`x ← x - colebrook x / colebrook_deriv x` of source line 42-43. -/
def newtonIter (x0 Re epsD : ℝ) : ℕ → ℝ
  | 0 => |x0|
  | n + 1 =>
    newtonIter x0 Re epsD n -
      colebrook (newtonIter x0 Re epsD n) Re epsD /
        colebrook_deriv (newtonIter x0 Re epsD n) Re epsD

/-- The Newton step (`res` in source line 42) taken from the `n`-th iterate. -/
def newtonRes (x0 Re epsD : ℝ) (n : ℕ) : ℝ :=
  colebrook (newtonIter x0 Re epsD n) Re epsD /
    colebrook_deriv (newtonIter x0 Re epsD n) Re epsD

/-- Per-sample regime selection of the `__main__` block
(src/ColebrookWhite.py lines 128-133): laminar closed form for
`Re <= 2040`, otherwise the Newton solver seeded with `0.01` (with the
source's default budget `maxiter = 100` and tolerance `1e-9`). -/
def sampleFd (Re epsD : ℝ) : Option ℝ :=
  if Re ≤ 2040 then some (64 / Re)
  else Option.map Prod.fst (newton 0.01 Re epsD 100 (1 / 10 ^ 9))

/-- Laminar Reynolds numbers of `moody` (src/ColebrookWhite.py line 65):
`for Re in range(500,2500)`. -/
def laminarReVals : List ℝ := (List.range' 500 2000).map (fun n : ℕ => (n : ℝ))

/-- Laminar friction factors of `moody` (src/ColebrookWhite.py line 66):
`laminarFdVals.append(64/Re)`. -/
def laminarFdVals : List ℝ := (List.range' 500 2000).map (fun n : ℕ => 64 / (n : ℝ))

/-- One roughness curve of `moody`'s turbulent loop
(src/ColebrookWhite.py lines 84-88): walk the Reynolds list, solve with the
current guess `g`, store the value and use it as the guess for the next
sample.  Returns the stored values together with the guess left for the
code that runs after the curve (`none` if some solve raised). -/
def moodyRow (epsD : ℝ) : List ℝ → ℝ → Option (List ℝ × ℝ)
  | [], g => some ([], g)
  | Re :: rest, g =>
    match newton g Re epsD 100 (1 / 10 ^ 9) with
    | none => none
    | some (v, _) => Option.map (fun p : List ℝ × ℝ => (v :: p.1, p.2)) (moodyRow epsD rest v)

/-- The full turbulent loop of `moody` (src/ColebrookWhite.py lines 79-89):
the guess `g` is initialised once (`Fd_guess = 0.01`, line 80) and the
outer loop over the roughness values never resets it. -/
def moodyCurves (ReList : List ℝ) : List ℝ → ℝ → Option (List (List ℝ))
  | [], _ => some []
  | epsD :: rest, g =>
    match moodyRow epsD ReList g with
    | none => none
    | some (row, g') => Option.map (fun rows => row :: rows) (moodyCurves ReList rest g')

/-- The fixed roughness reference set of `moody` (src/ColebrookWhite.py line 73). -/
def epsDvals : List ℝ := [0, 1 / 10 ^ 6, 1 / 10 ^ 5, 1 / 10 ^ 4, 1 / 10 ^ 3, 1 / 10 ^ 2]

/-- The turbulent Reynolds grid of `moody` (src/ColebrookWhite.py line 75):
`np.linspace(2000, 10**8, 50000)`. -/
def ReRangeVals : List ℝ :=
  (List.range 50000).map (fun k : ℕ => 2000 + (10 ^ 8 - 2000) * (k : ℝ) / 49999)

end

/-- Claim C4: for every `f`, `Re`, `epsD`, `colebrook f Re epsD` equals
`1/sqrt |f| + 2*log10 (2.51/(Re*sqrt |f|) + epsD/3.72)`, with the absolute
value of `f` taken inside both square roots. -/
theorem colebrook_eq_spec_formula (f Re epsD : ℝ) :
    colebrook f Re epsD =
      1 / Real.sqrt |f| + 2 * Real.logb 10 (2.51 / (Re * Real.sqrt |f|) + epsD / 3.72) :=
  rfl

/-- Claim C8: the laminar segment covers exactly the integer Reynolds
numbers in `[500, 2500)`, and the friction factors are exactly the values
`64/Re` for those Reynolds numbers, computed with no iteration. -/
theorem laminar_segment_exact :
    (∀ n : ℕ, ((n : ℝ) ∈ laminarReVals ↔ 500 ≤ n ∧ n < 2500)) ∧
      laminarFdVals = laminarReVals.map (fun Re => 64 / Re) := by
  constructor
  · intro n
    simp only [laminarReVals, List.mem_map, List.mem_range']
    constructor
    · rintro ⟨m, ⟨i, hi, rfl⟩, hm⟩
      have : n = 500 + 1 * i := Nat.cast_injective hm.symm
      omega
    · rintro ⟨h1, h2⟩
      exact ⟨n, ⟨n - 500, by omega, by omega⟩, rfl⟩
  · simp [laminarFdVals, laminarReVals, List.map_map, Function.comp]

/-- Claim C7: the per-sample evaluation selects the regime at the
threshold `2040`: for `Re ≤ 2040` it returns `64/Re` with no solver call,
and for `Re > 2040` it returns the root produced by `newton` seeded with
`0.01`. -/
theorem sampleFd_regime_selection (Re epsD : ℝ) :
    (Re ≤ 2040 → sampleFd Re epsD = some (64 / Re)) ∧
      (2040 < Re → sampleFd Re epsD = Option.map Prod.fst (newton 0.01 Re epsD 100 (1 / 10 ^ 9))) := by
  constructor
  · intro h; simp [sampleFd, h]
  · intro h; simp [sampleFd, not_le.mpr h]

/-- Witness for claim C7 at `Re = 2000` (laminar side) and `Re = 3000`
(turbulent side). -/
theorem sampleFd_regime_selection_witness :
    sampleFd 2000 0 = some (64 / 2000) ∧
      sampleFd 3000 0 = Option.map Prod.fst (newton 0.01 3000 0 100 (1 / 10 ^ 9)) :=
  ⟨(sampleFd_regime_selection 2000 0).1 (by norm_num),
    (sampleFd_regime_selection 3000 0).2 (by norm_num)⟩

/-- Counterexample to claim C2 as stated: at the friction-factor argument
`f = 0` (with `Re = 100000 > 0` and `epsD = 0.001 ≥ 0`) the Equation Core
does fail: `1/math.sqrt(math.fabs(0))` raises `ZeroDivisionError`, and so
does `0.0 ** (-3/2)` in the derivative. -/
theorem colebrookE_fails_at_zero :
    colebrookE 0 100000 (1 / 1000) = none ∧ colebrook_derivE 0 100000 (1 / 1000) = none := by
  constructor
  · simp [colebrookE]
  · simp [colebrook_derivE]

/-- Claim C2, amended: for every nonzero friction-factor argument `f`,
every `Re > 0` and every `epsD ≥ 0`, evaluating `colebrook` and
`colebrook_deriv` never fails: the absolute-value guards keep all
square-root and logarithm arguments in domain. -/
theorem equationCore_total_of_ne_zero (f Re epsD : ℝ)
    (hf : f ≠ 0) (hRe : 0 < Re) (he : 0 ≤ epsD) :
    (colebrookE f Re epsD).isSome = true ∧ (colebrook_derivE f Re epsD).isSome = true := by
  have habs : 0 < |f| := abs_pos.mpr hf
  have hs : 0 < Real.sqrt |f| := Real.sqrt_pos.mpr habs
  have hrs : 0 < Re * Real.sqrt |f| := mul_pos hRe hs
  have harg : 0 < 2.51 / (Re * Real.sqrt |f|) + epsD / 3.72 := by positivity
  have harg' : 0 < epsD / 3.72 + 2.51 / (Re * Real.sqrt |f|) := by positivity
  have hlog : 0 < Real.log 10 := Real.log_pos (by norm_num)
  constructor
  · simp [colebrookE, hs.ne', hrs.ne', not_le.mpr harg]
  · have hden : Real.log 10 * (epsD / 3.72 + 2.51 / (Re * Real.sqrt |f|)) * Re ≠ 0 := by
      positivity
    simp [colebrook_derivE, hrs.ne', hf, hden]

/-- Witness for the amended claim C2 at `f = 1`, `Re = 1`, `epsD = 0`. -/
theorem equationCore_total_of_ne_zero_witness :
    (colebrookE 1 1 0).isSome = true ∧ (colebrook_derivE 1 1 0).isSome = true :=
  equationCore_total_of_ne_zero 1 1 0 (by norm_num) (by norm_num) (le_refl 0)

/-- Unfolding of the loop when the budget is already spent
(`while i < maxiter` fails): the current state is returned. -/
theorem newtonLoop_of_ge (Re epsD tol : ℝ) (maxiter : ℕ) (x : ℝ) (i : ℕ)
    (h : ¬ i < maxiter) :
    newtonLoop Re epsD tol maxiter x i = some (x, i) := by
  rw [newtonLoop]
  simp [h]

/-- Unfolding of the loop when the step meets the tolerance: the updated
iterate is returned with the incremented count. -/
theorem newtonLoop_conv_step (Re epsD tol : ℝ) (maxiter : ℕ) (x : ℝ) (i : ℕ)
    (h : i < maxiter)
    (hc : |colebrook x Re epsD / colebrook_deriv x Re epsD| < tol) :
    newtonLoop Re epsD tol maxiter x i =
      some (x - colebrook x Re epsD / colebrook_deriv x Re epsD, i + 1) := by
  rw [newtonLoop]
  simp [h, hc]

/-- Unfolding of the loop at the raise branch (`elif i == (maxiter - 1)`). -/
theorem newtonLoop_raise_step (Re epsD tol : ℝ) (maxiter : ℕ) (x : ℝ) (i : ℕ)
    (h : i < maxiter)
    (hc : ¬ |colebrook x Re epsD / colebrook_deriv x Re epsD| < tol)
    (he : i + 1 = maxiter - 1) :
    newtonLoop Re epsD tol maxiter x i = none := by
  rw [newtonLoop]
  simp [h, hc, he]

/-- Unfolding of the loop when the iteration neither converges nor hits
the raise branch: it continues from the updated state. -/
theorem newtonLoop_next (Re epsD tol : ℝ) (maxiter : ℕ) (x : ℝ) (i : ℕ)
    (h : i < maxiter)
    (hc : ¬ |colebrook x Re epsD / colebrook_deriv x Re epsD| < tol)
    (hne : ¬ i + 1 = maxiter - 1) :
    newtonLoop Re epsD tol maxiter x i =
      newtonLoop Re epsD tol maxiter
        (x - colebrook x Re epsD / colebrook_deriv x Re epsD) (i + 1) := by
  rw [newtonLoop]
  simp [h, hc, hne]

/-- The loop state reached after `i` completed iterations is the `i`-th
abstract Newton iterate, and the step it computes is `newtonRes _ _ _ i`. -/
theorem newtonRes_def (x0 Re epsD : ℝ) (i : ℕ) :
    newtonRes x0 Re epsD i =
      colebrook (newtonIter x0 Re epsD i) Re epsD /
        colebrook_deriv (newtonIter x0 Re epsD i) Re epsD :=
  rfl

/-- If no step before the `k`-th meets the tolerance and the `k`-th does,
the loop started at iterate `i < k` returns `(newtonIter k, k)`,
provided `k < maxiter`. -/
theorem newtonLoop_conv_aux (x0 Re epsD tol : ℝ) (maxiter k : ℕ)
    (hk : k < maxiter)
    (hconv : |newtonRes x0 Re epsD (k - 1)| < tol) :
    ∀ n i, i + n + 1 = k →
      (∀ m, i ≤ m → m + 1 < k → ¬ |newtonRes x0 Re epsD m| < tol) →
      newtonLoop Re epsD tol maxiter (newtonIter x0 Re epsD i) i =
        some (newtonIter x0 Re epsD k, k) := by
  intro n
  induction n with
  | zero =>
    intro i hik _
    have hi : i = k - 1 := by omega
    subst hi
    have hlt : k - 1 < maxiter := by omega
    rw [newtonLoop_conv_step Re epsD tol maxiter _ _ hlt hconv]
    have hsucc : k - 1 + 1 = k := by omega
    rw [← newtonRes_def]
    have : newtonIter x0 Re epsD (k - 1) - newtonRes x0 Re epsD (k - 1) =
        newtonIter x0 Re epsD (k - 1 + 1) := rfl
    rw [this, hsucc]
  | succ n ih =>
    intro i hik hmiss
    have hi : i < maxiter := by omega
    have hnc : ¬ |newtonRes x0 Re epsD i| < tol := hmiss i le_rfl (by omega)
    have hne : ¬ i + 1 = maxiter - 1 := by omega
    rw [newtonLoop_next Re epsD tol maxiter _ _ hi (by rw [← newtonRes_def]; exact hnc) hne]
    have hstep : newtonIter x0 Re epsD i -
        colebrook (newtonIter x0 Re epsD i) Re epsD /
          colebrook_deriv (newtonIter x0 Re epsD i) Re epsD =
        newtonIter x0 Re epsD (i + 1) := rfl
    rw [hstep]
    exact ih (i + 1) (by omega) (fun m hm hmk => hmiss m (by omega) hmk)

/-- Claim C6: `newton` first replaces the seed by its absolute value, then
repeatedly applies `x ← x - colebrook x / colebrook_deriv x`, and returns
`(x, i)` as soon as the step magnitude drops strictly below the tolerance,
`i` being the 1-based count of completed iterations including the
terminating one.  Here `k` is the first step index meeting the tolerance. -/
theorem newton_success_characterization (x0 Re epsD tol : ℝ) (maxiter k : ℕ)
    (hk1 : 1 ≤ k) (hk : k < maxiter)
    (hmiss : ∀ m, m + 1 < k → ¬ |newtonRes x0 Re epsD m| < tol)
    (hconv : |newtonRes x0 Re epsD (k - 1)| < tol) :
    newton x0 Re epsD maxiter tol = newton |x0| Re epsD maxiter tol ∧
      newton x0 Re epsD maxiter tol = some (newtonIter x0 Re epsD k, k) := by
  constructor
  · unfold newton
    rw [abs_abs]
  · unfold newton
    have h0 : newtonIter x0 Re epsD 0 = |x0| := rfl
    rw [← h0]
    exact newtonLoop_conv_aux x0 Re epsD tol maxiter k hk hconv (k - 1) 0 (by omega)
      (fun m _ hmk => hmiss m hmk)

/-- If every step up to index `maxiter - 2` misses the tolerance, the loop
started at iterate `i` with `i + 2 ≤ maxiter` reaches the raise branch. -/
theorem newtonLoop_raise_aux (x0 Re epsD tol : ℝ) (maxiter : ℕ)
    (hmiss : ∀ m, m + 1 ≤ maxiter - 1 → ¬ |newtonRes x0 Re epsD m| < tol) :
    ∀ n i, i + n + 2 = maxiter →
      newtonLoop Re epsD tol maxiter (newtonIter x0 Re epsD i) i = none := by
  intro n
  induction n with
  | zero =>
    intro i hi
    have hlt : i < maxiter := by omega
    have hnc : ¬ |newtonRes x0 Re epsD i| < tol := hmiss i (by omega)
    exact newtonLoop_raise_step Re epsD tol maxiter _ _ hlt
      (by rw [← newtonRes_def]; exact hnc) (by omega)
  | succ n ih =>
    intro i hi
    have hlt : i < maxiter := by omega
    have hnc : ¬ |newtonRes x0 Re epsD i| < tol := hmiss i (by omega)
    rw [newtonLoop_next Re epsD tol maxiter _ _ hlt (by rw [← newtonRes_def]; exact hnc)
      (by omega)]
    have hstep : newtonIter x0 Re epsD i -
        colebrook (newtonIter x0 Re epsD i) Re epsD /
          colebrook_deriv (newtonIter x0 Re epsD i) Re epsD =
        newtonIter x0 Re epsD (i + 1) := rfl
    rw [hstep]
    exact ih (i + 1) (by omega)

/-- Claim C1, amended: for `maxiter ≥ 2`, if no step up to the
`(maxiter - 1)`-th meets the tolerance then `newton` raises the
Non-Convergence error; with `maxiter = 1` the raise branch is unreachable
and `newton` instead returns the unconverged first iterate. -/
theorem newton_nonconvergence_raises (x0 Re epsD tol : ℝ) (maxiter : ℕ)
    (h2 : 2 ≤ maxiter)
    (hmiss : ∀ m, m + 1 ≤ maxiter - 1 → ¬ |newtonRes x0 Re epsD m| < tol) :
    newton x0 Re epsD maxiter tol = none := by
  unfold newton
  have h0 : newtonIter x0 Re epsD 0 = |x0| := rfl
  rw [← h0]
  exact newtonLoop_raise_aux x0 Re epsD tol maxiter hmiss (maxiter - 2) 0 (by omega)

/-- Witness for the amended claim C1: with tolerance `0` no step can ever
satisfy `|res| < tol`, so `newton 1 1 0` with budget `2` raises. -/
theorem newton_nonconvergence_raises_witness :
    newton 1 1 0 2 0 = none :=
  newton_nonconvergence_raises 1 1 0 0 2 (le_refl 2)
    (fun m _ => not_lt.mpr (abs_nonneg (newtonRes 1 1 0 m)))

/-- If the loop starting at counter `i` with `i + 2 ≤ maxiter` returns a
value, the returned count `k` satisfies `i + 1 ≤ k` and `k + 1 ≤ maxiter`. -/
theorem newtonLoop_bound_aux (Re epsD tol : ℝ) (maxiter : ℕ) :
    ∀ n x i v k, i + n + 2 = maxiter →
      newtonLoop Re epsD tol maxiter x i = some (v, k) →
      i + 1 ≤ k ∧ k + 1 ≤ maxiter := by
  intro n
  induction n with
  | zero =>
    intro x i v k hi hloop
    have hlt : i < maxiter := by omega
    by_cases hc : |colebrook x Re epsD / colebrook_deriv x Re epsD| < tol
    · rw [newtonLoop_conv_step Re epsD tol maxiter x i hlt hc] at hloop
      have : k = i + 1 := by
        have := (Option.some_inj.mp hloop)
        exact (Prod.ext_iff.mp this).2.symm
      omega
    · rw [newtonLoop_raise_step Re epsD tol maxiter x i hlt hc (by omega)] at hloop
      exact absurd hloop (by simp)
  | succ n ih =>
    intro x i v k hi hloop
    have hlt : i < maxiter := by omega
    by_cases hc : |colebrook x Re epsD / colebrook_deriv x Re epsD| < tol
    · rw [newtonLoop_conv_step Re epsD tol maxiter x i hlt hc] at hloop
      have : k = i + 1 := by
        have := (Option.some_inj.mp hloop)
        exact (Prod.ext_iff.mp this).2.symm
      omega
    · rw [newtonLoop_next Re epsD tol maxiter x i hlt hc (by omega)] at hloop
      have := ih _ (i + 1) v k (by omega) hloop
      omega

/-- Claim C10: for `maxiter ≥ 2`, whenever `newton` returns normally its
iteration count `k` satisfies `1 ≤ k ≤ maxiter - 1`; the `maxiter`-th
iteration is never executed. -/
theorem newton_iterations_at_most_maxiter_sub_one (x0 Re epsD tol : ℝ)
    (maxiter : ℕ) (v : ℝ) (k : ℕ) (h2 : 2 ≤ maxiter)
    (h : newton x0 Re epsD maxiter tol = some (v, k)) :
    1 ≤ k ∧ k ≤ maxiter - 1 := by
  have := newtonLoop_bound_aux Re epsD tol maxiter (maxiter - 2) |x0| 0 v k (by omega) h
  omega

/-- Lower bound on the natural logarithm of 10, used for derivative bounds. -/
theorem two_le_log_ten : (2 : ℝ) ≤ Real.log 10 := by
  rw [Real.le_log_iff_exp_le (by norm_num)]
  have h : Real.exp 2 = Real.exp 1 * Real.exp 1 := by
    rw [← Real.exp_add]; norm_num
  rw [h]
  nlinarith [Real.exp_one_lt_d9, Real.exp_pos 1]

/-- Lower bound on the square root of 1000. -/
theorem sqrt_thousand_gt : (31 : ℝ) < Real.sqrt 1000 := by
  rw [Real.lt_sqrt (by norm_num)]
  norm_num

/-- At the claim C1 test point (`f = 1000`, `Re = 1e5`, `epsD = 0.001`) the
residual is at most `-1`. -/
theorem colebrook_at_1000_le : colebrook 1000 100000 (1 / 1000) ≤ -1 := by
  have habs : |(1000 : ℝ)| = 1000 := abs_of_pos (by norm_num)
  have hs := sqrt_thousand_gt
  have hs0 : (0 : ℝ) < Real.sqrt 1000 := by linarith
  unfold colebrook
  rw [habs]
  have h1 : 1 / Real.sqrt 1000 ≤ 1 / 31 :=
    one_div_le_one_div_of_le (by norm_num) hs.le
  have h2 : (2.51 : ℝ) / (100000 * Real.sqrt 1000) ≤ 2.51 / 3100000 := by
    rw [div_le_div_iff₀ (by positivity) (by norm_num)]
    nlinarith
  have hu0 : (0 : ℝ) < 2.51 / (100000 * Real.sqrt 1000) + 1 / 1000 / 3.72 := by positivity
  have hu1 : (2.51 : ℝ) / (100000 * Real.sqrt 1000) + 1 / 1000 / 3.72 ≤ 1 / 10 := by
    nlinarith
  have hlogb : Real.logb 10 (2.51 / (100000 * Real.sqrt 1000) + 1 / 1000 / 3.72) ≤ -1 := by
    have hmono : Real.logb 10 (2.51 / (100000 * Real.sqrt 1000) + 1 / 1000 / 3.72) ≤
        Real.logb 10 (1 / 10) :=
      Real.logb_le_logb_of_le (by norm_num) hu0 hu1
    have hval : Real.logb 10 ((1 : ℝ) / 10) = -1 := by
      rw [one_div, Real.logb_inv, Real.logb_self_eq_one (by norm_num)]
    linarith [hmono, hval.le]
  linarith

/-- At the claim C1 test point the derivative value is negative and at
least `-1` (so its magnitude is at most 1). -/
theorem colebrook_deriv_at_1000_bounds :
    colebrook_deriv 1000 100000 (1 / 1000) < 0 ∧
      -1 ≤ colebrook_deriv 1000 100000 (1 / 1000) := by
  have habs : |(1000 : ℝ)| = 1000 := abs_of_pos (by norm_num)
  have hs := sqrt_thousand_gt
  have hs0 : (0 : ℝ) < Real.sqrt 1000 := by linarith
  unfold colebrook_deriv
  rw [habs]
  have hA0 : (0 : ℝ) < (1000 : ℝ) ^ ((-3 : ℝ) / 2) :=
    Real.rpow_pos_of_pos (by norm_num) _
  have hA1 : (1000 : ℝ) ^ ((-3 : ℝ) / 2) ≤ 1 :=
    Real.rpow_le_one_of_one_le_of_nonpos (by norm_num) (by norm_num)
  have ht0 : (0 : ℝ) < 2.51 / (100000 * Real.sqrt 1000) := by positivity
  have hu_lo : (1 : ℝ) / 3720 ≤ 1 / 1000 / 3.72 + 2.51 / (100000 * Real.sqrt 1000) := by
    nlinarith
  have hu0 : (0 : ℝ) < 1 / 1000 / 3.72 + 2.51 / (100000 * Real.sqrt 1000) := by positivity
  have hlog := two_le_log_ten
  have hlog0 : (0 : ℝ) < Real.log 10 := by linarith
  have hden_lo : (5.02 : ℝ) ≤
      Real.log 10 * (1 / 1000 / 3.72 + 2.51 / (100000 * Real.sqrt 1000)) * 100000 := by
    nlinarith
  have hden0 : (0 : ℝ) <
      Real.log 10 * (1 / 1000 / 3.72 + 2.51 / (100000 * Real.sqrt 1000)) * 100000 := by
    positivity
  have hq0 : (0 : ℝ) < 2 * 2.51 /
      (Real.log 10 * (1 / 1000 / 3.72 + 2.51 / (100000 * Real.sqrt 1000)) * 100000) := by
    positivity
  have hq1 : 2 * 2.51 /
      (Real.log 10 * (1 / 1000 / 3.72 + 2.51 / (100000 * Real.sqrt 1000)) * 100000) ≤ 1 := by
    rw [div_le_one hden0]
    linarith
  constructor
  · nlinarith
  · nlinarith

/-- The first Newton step at the claim C1 test point has magnitude at
least 1 (far above any reasonable tolerance). -/
theorem newton_step_at_1000_large :
    1 ≤ |colebrook 1000 100000 (1 / 1000) / colebrook_deriv 1000 100000 (1 / 1000)| := by
  have hc := colebrook_at_1000_le
  have hd := colebrook_deriv_at_1000_bounds
  rw [abs_div]
  have h1 : 1 ≤ |colebrook 1000 100000 (1 / 1000)| := by
    rw [abs_of_nonpos (by linarith)]
    linarith
  have h2 : |colebrook_deriv 1000 100000 (1 / 1000)| ≤ 1 := by
    rw [abs_of_nonpos hd.1.le]
    linarith
  have h3 : 0 < |colebrook_deriv 1000 100000 (1 / 1000)| := abs_pos.mpr hd.1.ne
  rw [one_le_div h3]
  linarith

/-- Counterexample to claim C1 as stated: calling `newton` with
`maxIterations = 1`, seed `1000`, `Re = 1e5`, `epsD = 0.001` and the
default tolerance `1e-9` exhausts the budget without meeting the
tolerance (the first step has magnitude at least 1), yet `newton`
returns a value instead of raising the Non-Convergence error: the raise
branch tests `i == maxiter - 1 = 0` after `i` was incremented to 1, so it
is unreachable. -/
theorem newton_maxiter_one_returns_unconverged :
    ¬ |newtonRes 1000 100000 (1 / 1000) 0| < 1 / 10 ^ 9 ∧
      (newton 1000 100000 (1 / 1000) 1 (1 / 10 ^ 9)).isSome = true := by
  have habs : |(1000 : ℝ)| = 1000 := abs_of_pos (by norm_num)
  have hres : newtonRes 1000 100000 (1 / 1000) 0 =
      colebrook 1000 100000 (1 / 1000) / colebrook_deriv 1000 100000 (1 / 1000) := by
    simp [newtonRes, newtonIter, habs]
  have hbig : ¬ |colebrook 1000 100000 (1 / 1000) / colebrook_deriv 1000 100000 (1 / 1000)| <
      1 / 10 ^ 9 :=
    not_lt.mpr (le_trans (by norm_num) newton_step_at_1000_large)
  constructor
  · rw [hres]; exact hbig
  · unfold newton
    rw [habs]
    rw [newtonLoop_next 100000 (1 / 1000) (1 / 10 ^ 9) 1 1000 0 (by norm_num) hbig (by omega)]
    rw [newtonLoop_of_ge 100000 (1 / 1000) (1 / 10 ^ 9) 1 _ 1 (by omega)]
    rfl

/-- Bounds on the base-10 logarithm of 2.51. -/
theorem logb_two_point_fifty_one_bounds :
    0 ≤ Real.logb 10 2.51 ∧ Real.logb 10 2.51 ≤ 1 := by
  constructor
  · exact Real.logb_nonneg (by norm_num) (by norm_num)
  · have h := Real.logb_le_logb_of_le (b := 10) (by norm_num) (by norm_num : (0:ℝ) < 2.51)
      (by norm_num : (2.51 : ℝ) ≤ 10)
    rw [Real.logb_self_eq_one (by norm_num)] at h
    exact h

/-- At the benign point `f = 1`, `Re = 1`, `epsD = 0` the first Newton
step has magnitude below 10 (used to witness a converging first
iteration when the tolerance is set to 10). -/
theorem newton_step_at_one_small :
    |colebrook 1 1 0 / colebrook_deriv 1 1 0| < 10 := by
  have hlb := logb_two_point_fifty_one_bounds
  have hlog := two_le_log_ten
  have hlog0 : (0 : ℝ) < Real.log 10 := by linarith
  have hcw : colebrook 1 1 0 = 1 + 2 * Real.logb 10 2.51 := by
    unfold colebrook
    rw [abs_one, Real.sqrt_one]
    norm_num
  have hcd : colebrook_deriv 1 1 0 = -0.5 * (1 + 2 * 2.51 / (Real.log 10 * 2.51)) := by
    unfold colebrook_deriv
    rw [abs_one, Real.sqrt_one, Real.one_rpow]
    norm_num
  have hq0 : (0 : ℝ) < 2 * 2.51 / (Real.log 10 * 2.51) := by positivity
  have h1 : 1 ≤ colebrook 1 1 0 := by rw [hcw]; linarith
  have h3 : colebrook 1 1 0 ≤ 3 := by rw [hcw]; linarith
  have hd1 : colebrook_deriv 1 1 0 ≤ -0.5 := by rw [hcd]; nlinarith
  rw [abs_div]
  have ha1 : |colebrook 1 1 0| ≤ 3 := by
    rw [abs_of_nonneg (by linarith)]; exact h3
  have ha2 : (0.5 : ℝ) ≤ |colebrook_deriv 1 1 0| := by
    rw [abs_of_nonpos (by linarith)]; linarith
  have ha3 : (0 : ℝ) < |colebrook_deriv 1 1 0| := by linarith
  have : |colebrook 1 1 0| / |colebrook_deriv 1 1 0| ≤ 3 / (0.5 : ℝ) :=
    div_le_div₀ (by norm_num) ha1 (by norm_num) ha2
  calc |colebrook 1 1 0| / |colebrook_deriv 1 1 0| ≤ 3 / (0.5 : ℝ) := this
    _ < 10 := by norm_num

/-- Newton from seed 1 on `Re = 1`, `epsD = 0` with tolerance 10 and
budget 3 converges in its first iteration. -/
theorem newton_at_one_eval : newton 1 1 0 3 10 = some (newtonIter 1 1 0 1, 1) := by
  unfold newton
  have h0 : |(1 : ℝ)| = 1 := abs_one
  have hc : |colebrook |(1 : ℝ)| 1 0 / colebrook_deriv |(1 : ℝ)| 1 0| < 10 := by
    rw [h0]; exact newton_step_at_one_small
  rw [newtonLoop_conv_step 1 0 10 3 |(1 : ℝ)| 0 (by norm_num) hc]
  rfl

/-- Witness for claim C6: from seed 1 with `Re = 1`, `epsD = 0`,
tolerance 10 and budget 2 the very first step meets the tolerance and
`newton` returns the first iterate with count 1. -/
theorem newton_success_characterization_witness :
    newton 1 1 0 2 10 = newton |(1 : ℝ)| 1 0 2 10 ∧
      newton 1 1 0 2 10 = some (newtonIter 1 1 0 1, 1) :=
  newton_success_characterization 1 1 0 10 2 1 (le_refl 1) (by norm_num)
    (fun m hm => absurd hm (by omega))
    (by simpa [newtonRes, newtonIter] using newton_step_at_one_small)

/-- Witness for claim C10: the concrete run `newton 1 1 0 3 10` returns
count 1, which indeed satisfies `1 ≤ 1 ≤ 3 - 1`. -/
theorem newton_iterations_at_most_maxiter_sub_one_witness :
    1 ≤ 1 ∧ 1 ≤ 3 - 1 :=
  newton_iterations_at_most_maxiter_sub_one 1 1 0 10 3 (newtonIter 1 1 0 1) 1
    (by norm_num) newton_at_one_eval

/-- Claim C3 (defect exhibited): in `moody`'s turbulent loop the
warm-start guess is carried across roughness curves.  For any Reynolds
grid and any two roughness values, the second curve is computed from the
guess `p.2` left over by the first curve — the last converged value of
curve one — and not from the guess `g` the batch started with.  Curve
values therefore depend on which curves were computed before them. -/
theorem moody_guess_carries_across_curves (ReList : List ℝ) (g e1 e2 : ℝ) :
    moodyCurves ReList [e1, e2] g =
      (moodyRow e1 ReList g).bind (fun p =>
        (moodyRow e2 ReList p.2).map (fun q => [p.1, q.1])) := by
  rcases h1 : moodyRow e1 ReList g with _ | ⟨row1, g1⟩
  · simp [moodyCurves, h1]
  · rcases h2 : moodyRow e2 ReList g1 with _ | ⟨row2, g2⟩
    · simp [moodyCurves, h1, h2]
    · simp [moodyCurves, h1, h2]

/-- For `Re > 0`, `epsD ≥ 0` the residual is strictly decreasing in the
friction factor on the positive axis. -/
theorem colebrook_strictAnti_in_f (Re epsD a b : ℝ) (hRe : 0 < Re) (he : 0 ≤ epsD)
    (ha : 0 < a) (hab : a < b) :
    colebrook b Re epsD < colebrook a Re epsD := by
  have hb : 0 < b := lt_trans ha hab
  unfold colebrook
  rw [abs_of_pos ha, abs_of_pos hb]
  have hsa : 0 < Real.sqrt a := Real.sqrt_pos.mpr ha
  have hsb : 0 < Real.sqrt b := Real.sqrt_pos.mpr hb
  have hsab : Real.sqrt a < Real.sqrt b := Real.sqrt_lt_sqrt ha.le hab
  have h1 : 1 / Real.sqrt b < 1 / Real.sqrt a := one_div_lt_one_div_of_lt hsa hsab
  have h2 : 2.51 / (Re * Real.sqrt b) < 2.51 / (Re * Real.sqrt a) :=
    div_lt_div_of_pos_left (by norm_num) (by positivity) (by nlinarith)
  have hargb : 0 < 2.51 / (Re * Real.sqrt b) + epsD / 3.72 := by positivity
  have h3 : Real.logb 10 (2.51 / (Re * Real.sqrt b) + epsD / 3.72) <
      Real.logb 10 (2.51 / (Re * Real.sqrt a) + epsD / 3.72) :=
    Real.logb_lt_logb (by norm_num) hargb (by linarith)
  linarith

/-- For `f > 0`, `Re > 0` the residual is monotone non-decreasing in the
relative roughness. -/
theorem colebrook_mono_in_epsD (f Re e1 e2 : ℝ) (hf : 0 < f) (hRe : 0 < Re)
    (he1 : 0 ≤ e1) (h12 : e1 ≤ e2) :
    colebrook f Re e1 ≤ colebrook f Re e2 := by
  unfold colebrook
  rw [abs_of_pos hf]
  have hs : 0 < Real.sqrt f := Real.sqrt_pos.mpr hf
  have harg : 0 < 2.51 / (Re * Real.sqrt f) + e1 / 3.72 := by positivity
  have h := Real.logb_le_logb_of_le (b := 10) (by norm_num) harg
    (by gcongr : 2.51 / (Re * Real.sqrt f) + e1 / 3.72 ≤ 2.51 / (Re * Real.sqrt f) + e2 / 3.72)
  linarith

/-- For `f > 0`, `Re > 0`, `epsD ≥ 0` the value `colebrook_deriv f Re epsD`
is the derivative of the residual `g ↦ colebrook g Re epsD` at `f`. -/
theorem colebrook_hasDerivAt (f Re epsD : ℝ) (hf : 0 < f) (hRe : 0 < Re) (he : 0 ≤ epsD) :
    HasDerivAt (fun g => colebrook g Re epsD) (colebrook_deriv f Re epsD) f := by
  have hRe' : Re ≠ 0 := hRe.ne'
  have hf' : f ≠ 0 := hf.ne'
  have hL : (0 : ℝ) < Real.log 10 := Real.log_pos (by norm_num)
  have hfp : (0 : ℝ) < f ^ (-(1/2) : ℝ) := Real.rpow_pos_of_pos hf _
  have huf : (0 : ℝ) < 2.51 / Re * f ^ (-(1/2) : ℝ) + epsD / 3.72 := by positivity
  have h1 : HasDerivAt (fun g : ℝ => g ^ (-(1/2) : ℝ)) (-(1/2) * f ^ (-(1/2) - 1 : ℝ)) f :=
    Real.hasDerivAt_rpow_const (Or.inl hf')
  have hu : HasDerivAt (fun g : ℝ => 2.51 / Re * g ^ (-(1/2) : ℝ) + epsD / 3.72)
      (2.51 / Re * (-(1/2) * f ^ (-(1/2) - 1 : ℝ))) f := (h1.const_mul _).add_const _
  have hlu : HasDerivAt
      (fun g : ℝ => Real.log (2.51 / Re * g ^ (-(1/2) : ℝ) + epsD / 3.72))
      (2.51 / Re * (-(1/2) * f ^ (-(1/2) - 1 : ℝ)) /
        (2.51 / Re * f ^ (-(1/2) : ℝ) + epsD / 3.72)) f := hu.log huf.ne'
  have hFD : HasDerivAt
      (fun g : ℝ => g ^ (-(1/2) : ℝ) +
        2 * (Real.log (2.51 / Re * g ^ (-(1/2) : ℝ) + epsD / 3.72) / Real.log 10))
      (-(1/2) * f ^ (-(1/2) - 1 : ℝ) +
        2 * (2.51 / Re * (-(1/2) * f ^ (-(1/2) - 1 : ℝ)) /
          (2.51 / Re * f ^ (-(1/2) : ℝ) + epsD / 3.72) / Real.log 10)) f :=
    h1.add ((hlu.div_const _).const_mul 2)
  have hev : (fun g => colebrook g Re epsD) =ᶠ[nhds f]
      (fun g : ℝ => g ^ (-(1/2) : ℝ) +
        2 * (Real.log (2.51 / Re * g ^ (-(1/2) : ℝ) + epsD / 3.72) / Real.log 10)) := by
    filter_upwards [eventually_gt_nhds hf] with g hg
    have hneg : g ^ (-(1/2) : ℝ) = (g ^ ((1:ℝ)/2))⁻¹ := Real.rpow_neg hg.le (1/2 : ℝ)
    have hinner : (2.51 : ℝ) / (Re * g ^ ((1:ℝ)/2)) = 2.51 / Re * (g ^ ((1:ℝ)/2))⁻¹ := by
      rw [div_mul_eq_div_div, div_eq_mul_inv]
    show colebrook g Re epsD =
      g ^ (-(1/2) : ℝ) + 2 * (Real.log (2.51 / Re * g ^ (-(1/2) : ℝ) + epsD / 3.72) / Real.log 10)
    unfold colebrook
    rw [abs_of_pos hg, Real.sqrt_eq_rpow, Real.logb, hneg, hinner, one_div]
  have hmain := hFD.congr_of_eventuallyEq hev
  have hval : colebrook_deriv f Re epsD =
      -(1/2) * f ^ (-(1/2) - 1 : ℝ) +
        2 * (2.51 / Re * (-(1/2) * f ^ (-(1/2) - 1 : ℝ)) /
          (2.51 / Re * f ^ (-(1/2) : ℝ) + epsD / 3.72) / Real.log 10) := by
    have hs : (0 : ℝ) < Real.sqrt f := Real.sqrt_pos.mpr hf
    have e1 : f ^ (-(1/2) : ℝ) = (Real.sqrt f)⁻¹ := by
      rw [Real.rpow_neg hf.le, ← Real.sqrt_eq_rpow]
    have e2 : f ^ (-(1/2) - 1 : ℝ) = (Real.sqrt f)⁻¹ * f⁻¹ := by
      rw [show (-(1/2) - 1 : ℝ) = -(1/2) + (-1) by norm_num, Real.rpow_add hf,
        Real.rpow_neg_one, e1]
    have e3 : f ^ ((-3 : ℝ)/2) = (Real.sqrt f)⁻¹ * f⁻¹ := by
      rw [show ((-3 : ℝ)/2) = -(1/2) + (-1) by norm_num, Real.rpow_add hf,
        Real.rpow_neg_one, e1]
    have hUne : 2.51 / Re * (Real.sqrt f)⁻¹ + epsD / 3.72 ≠ 0 := by
      have : (0:ℝ) < 2.51 / Re * (Real.sqrt f)⁻¹ + epsD / 3.72 := by positivity
      exact this.ne'
    unfold colebrook_deriv
    rw [abs_of_pos hf, e1, e2, e3]
    field_simp
    ring
  rw [hval]
  exact hmain

/-- Claim C5: for `f > 0`, `Re > 0`, `epsD ≥ 0`, `colebrook_deriv f Re epsD`
equals the closed form
`-0.5 * f^(-3/2) * (1 + 2*2.51/(ln 10 * (epsD/3.72 + 2.51/(Re*sqrt |f|)) * Re))`
(the power term uses `f` directly while the square-root term uses `|f|`,
exactly as in the source), and that value is the analytic derivative of
the residual with respect to `f`. -/
theorem colebrook_deriv_is_analytic_derivative (f Re epsD : ℝ)
    (hf : 0 < f) (hRe : 0 < Re) (he : 0 ≤ epsD) :
    colebrook_deriv f Re epsD =
      -0.5 * f ^ ((-3 : ℝ) / 2) *
        (1 + 2 * 2.51 / (Real.log 10 * (epsD / 3.72 + 2.51 / (Re * Real.sqrt |f|)) * Re)) ∧
    HasDerivAt (fun g => colebrook g Re epsD) (colebrook_deriv f Re epsD) f :=
  ⟨rfl, colebrook_hasDerivAt f Re epsD hf hRe he⟩

/-- Witness for claim C5 at `f = 1`, `Re = 1`, `epsD = 0`. -/
theorem colebrook_deriv_is_analytic_derivative_witness :
    colebrook_deriv 1 1 0 =
      -0.5 * (1 : ℝ) ^ ((-3 : ℝ) / 2) *
        (1 + 2 * 2.51 / (Real.log 10 * (0 / 3.72 + 2.51 / (1 * Real.sqrt |(1 : ℝ)|)) * 1)) ∧
    HasDerivAt (fun g => colebrook g 1 0) (colebrook_deriv 1 1 0) 1 :=
  colebrook_deriv_is_analytic_derivative 1 1 0 (by norm_num) (by norm_num) (le_refl 0)
